import Mathlib

/-!
Verification of `fix_nlp_format.py`, a one-pass text filter that repairs a
Markdown file in which fenced Python code blocks were collapsed onto single
lines with literal backslash-n escape sequences.

Lines are modelled as `List Char` (Python strings indexed by character).
Python's `str.split(sep)`, `str.replace(old, new)`, `str.strip()`,
`str.rstrip()`, `str.startswith`, substring membership (`in`) and `str.find`
are embedded as executable functions on `List Char`, specialised to the
concrete patterns the script uses.
-/

set_option maxRecDepth 40000

namespace FixNlp

/-- The two-character literal escape sequence, Python `r'\n'`. -/
def escSeq : List Char := ['\\', 'n']

/-- The Python fence-open marker, `'```python'`. -/
def fencePy : List Char := "```python".toList

/-- The marker followed by a real newline, Python `'```python\n'`. -/
def fencePyNl : List Char := "```python\n".toList

/-- The generic fence marker, `'```'`. -/
def fence3 : List Char := "```".toList

/-- Embedding of Python `r'\n' in line`: does the line contain the
two-character sequence backslash-n? -/
def containsEsc : List Char → Bool
  | [] => false
  | [_] => false
  | a :: b :: rest => (a = '\\' && b = 'n') || containsEsc (b :: rest)

/-- Embedding of Python `pat in line` for a general pattern: substring test. -/
def containsSub (pat : List Char) : List Char → Bool
  | [] => pat.isEmpty
  | c :: rest => pat.isPrefixOf (c :: rest) || containsSub pat rest

/-- Embedding of Python `line.find(pat)` restricted to the case where the
pattern occurs (the script only reads the result under that guard): index of
the first occurrence.  When the pattern does not occur this returns
`line.length` rather than Python's `-1`. -/
def findSub (pat : List Char) : List Char → Nat
  | [] => 0
  | c :: rest => if pat.isPrefixOf (c :: rest) then 0 else findSub pat rest + 1

/-- Characters stripped by Python `str.strip()` / `str.rstrip()` (ASCII
whitespace). -/
def isPySpace (c : Char) : Bool :=
  c = ' ' || c = '\t' || c = '\n' || c = '\r' || c = '\x0b' || c = '\x0c'

/-- Embedding of Python `line.rstrip()`. -/
def pyRstrip (l : List Char) : List Char :=
  (l.reverse.dropWhile isPySpace).reverse

/-- Embedding of Python `line.strip()`. -/
def pyStrip (l : List Char) : List Char :=
  pyRstrip (l.dropWhile isPySpace)

/-- Embedding of Python `line.split(r'\n')`: split on every (left-to-right,
non-overlapping) occurrence of the two-character sequence backslash-n. -/
def splitEsc : List Char → List (List Char)
  | [] => [[]]
  | [c] => [[c]]
  | a :: b :: rest =>
    if a = '\\' ∧ b = 'n' then
      [] :: splitEsc rest
    else
      match splitEsc (b :: rest) with
      | [] => [[a]]
      | p :: ps => (a :: p) :: ps

/-- Embedding of Python `part.replace(r'\\n', '\n')`: replace every
(left-to-right, non-overlapping) occurrence of the three-character sequence
backslash-backslash-n by a real newline character. -/
def replaceEscEsc : List Char → List Char
  | [] => []
  | [c] => [c]
  | [c, d] => [c, d]
  | a :: b :: c :: rest =>
    if a = '\\' ∧ b = '\\' ∧ c = 'n' then
      '\n' :: replaceEscEsc rest
    else
      a :: replaceEscEsc (b :: c :: rest)

/-- Embedding of Python `part.replace(r'\"', '"')`: replace every
(left-to-right, non-overlapping) occurrence of backslash-quote by a plain
double quote. -/
def replaceQuote : List Char → List Char
  | [] => []
  | [c] => [c]
  | a :: b :: rest =>
    if a = '\\' ∧ b = '"' then
      '"' :: replaceQuote rest
    else
      a :: replaceQuote (b :: rest)

/-- The body of the `for i, part in enumerate(parts)` loop applied to one
non-empty part: unescape, then append a line terminator. -/
def processPart (p : List Char) : List Char :=
  replaceQuote (replaceEscEsc p) ++ ['\n']

/-- The `for i, part in enumerate(parts)` loop of `fix_code_block_line`:
a non-empty part is emitted processed, an empty part that is not the last
one is emitted as a blank line, an empty last part is dropped. -/
def processParts : List (List Char) → List (List Char)
  | [] => []
  | p :: ps =>
    if !p.isEmpty then processPart p :: processParts ps
    else if !ps.isEmpty then ['\n'] :: processParts ps
    else processParts ps

/-- Embedding of `fix_code_block_line` from `fix_nlp_format.py`: if the line
has no literal backslash-n escape, return it unchanged as a one-element list;
otherwise split on the escape and process the parts. -/
def fix_code_block_line (line : List Char) : List (List Char) :=
  if !containsEsc line then [line]
  else processParts (splitEsc line)

/-- Guard of the first rule of `main`:
`line.strip() == '```python' or line.strip().startswith('```python\n')`. -/
def isFenceOpen (line : List Char) : Bool :=
  pyStrip line == fencePy || fencePyNl.isPrefixOf (pyStrip line)

/-- Guard of the second rule of `main`:
`line.strip().startswith('```')` and currently inside a Python block. -/
def isFenceClose (inb : Bool) (line : List Char) : Bool :=
  fence3.isPrefixOf (pyStrip line) && inb

/-- Guard of the third rule of `main`:
`'```python' in line and len(line) > 20 and not line.strip() == '```python'`. -/
def isGluedFence (line : List Char) : Bool :=
  containsSub fencePy line && decide (line.length > 20)
    && !(pyStrip line == fencePy)

/-- Guard of the fourth rule of `main`:
`in_python_block and r'\n' in line and len(line) > 150`. -/
def isCollapsed (inb : Bool) (line : List Char) : Bool :=
  inb && containsEsc line && decide (line.length > 150)

/-- One iteration of the `while i < len(lines)` loop of `main`: given the
current in-block flag and the line, return the lines appended to `result`
and the new flag. -/
def step (inb : Bool) (line : List Char) : List (List Char) × Bool :=
  if isFenceOpen line then
    ([line], true)
  else if isFenceClose inb line then
    ([line], false)
  else if isGluedFence line then
    ((if findSub fencePy line > 0 then
        [pyRstrip (line.take (findSub fencePy line)) ++ ['\n']]
      else []) ++
      (fencePy ++ ['\n']) :: fix_code_block_line (line.drop (findSub fencePy line + 9)),
     true)
  else if isCollapsed inb line then
    (fix_code_block_line line, inb)
  else
    ([line], inb)

/-- The whole scan loop of `main`, from a given in-block flag. -/
def processLinesFrom (inb : Bool) : List (List Char) → List (List Char)
  | [] => []
  | l :: ls => (step inb l).fst ++ processLinesFrom (step inb l).snd ls

/-- The document transformation performed by `main` between the read and the
write: scan the lines once, starting outside any block. -/
def processLines (doc : List (List Char)) : List (List Char) :=
  processLinesFrom false doc

/-- The whole of `main`, with the file read modelled as an `Except`: a failed
or undecodable read short-circuits before any processing, and the value
carried by `.ok` on the right is exactly the content written back. -/
def runMain (input : Except String (List (List Char))) :
    Except String (List (List Char)) :=
  match input with
  | .error e => .error e
  | .ok lines => .ok (processLines lines)

/-- Fragment emission exactly as the specification words it for the Line
Expander: every non-empty fragment is emitted with escaped double-quote
sequences replaced by plain double quotes and a trailing line terminator
appended; an empty fragment that is not the final one is emitted as a single
blank line; an empty final fragment is emitted as nothing. -/
def specEmit : List (List Char) → List (List Char)
  | [] => []
  | f :: fs =>
    if !f.isEmpty then (replaceQuote f ++ ['\n']) :: specEmit fs
    else if !fs.isEmpty then ['\n'] :: specEmit fs
    else specEmit fs

/-- A fence glued to code, with two literal backslash-n escapes (the example
line of the specification's test 3). -/
def exGlued : List Char := "```pythondef foo():\\n    return 1\\n".toList

/-- A line longer than 150 characters containing a literal escape whose
stripped form starts with a generic fence marker. -/
def exC3 : List Char := "```python x = 1\\n".toList ++ List.replicate 140 'z'

/-- A long collapsed line: 100 times the letter a, a literal escape, 60 times
the letter b, then a glued fence marker and more collapsed code. -/
def exC5Line : List Char :=
  List.replicate 100 'a' ++ ['\\', 'n'] ++ List.replicate 60 'b'
    ++ fencePy ++ "c\\nd".toList

/-- A two-line document: a proper fence-open line followed by `exC5Line`. -/
def exC5Doc : List (List Char) := ["```python\n".toList, exC5Line]

/-- An assignment whose string literal holds an escaped newline, written in
the source file as the eleven characters of the line
x = "a backslash backslash n b" (doubled backslash before the n). -/
def exC6 : List Char := "x = \"a\\\\nb\"".toList

/-! ## Basic lemmas about the Line Expander's building blocks -/

/-- Splitting never yields an empty list of fragments. -/
theorem splitEsc_ne_nil (l : List Char) : splitEsc l ≠ [] := by
  induction l using splitEsc.induct with
  | case1 => simp [splitEsc]
  | case2 c => simp [splitEsc]
  | case3 a b rest h ih => simp [splitEsc, h]
  | case4 a b rest h heq ih => simp [splitEsc, h, heq]
  | case5 a b rest h p ps heq ih => simp [splitEsc, h, heq]

/-- The first fragment of splitting a non-empty line is either empty or
starts with the line's first character. -/
theorem splitEsc_head_cons (a : Char) (t : List Char) (p : List Char)
    (ps : List (List Char)) (h : splitEsc (a :: t) = p :: ps) :
    p = [] ∨ ∃ q, p = a :: q := by
  match t with
  | [] =>
    simp [splitEsc] at h
    exact Or.inr ⟨[], by simp [h.1.symm]⟩
  | b :: rest =>
    by_cases hab : a = '\\' ∧ b = 'n'
    · simp [splitEsc, hab] at h
      exact Or.inl h.1
    · have hne := splitEsc_ne_nil (b :: rest)
      match hsp : splitEsc (b :: rest) with
      | [] => exact absurd hsp hne
      | q :: qs =>
        simp [splitEsc, hab, hsp] at h
        exact Or.inr ⟨q, h.1.symm⟩

/-- Dropping the first character cannot create an escape occurrence. -/
theorem containsEsc_tail (a : Char) (l : List Char)
    (h : containsEsc (a :: l) = false) : containsEsc l = false := by
  match l with
  | [] => simp [containsEsc]
  | b :: rest =>
    simp [containsEsc] at h
    exact h.2

/-- Consing a character other than a backslash does not create an escape
occurrence. -/
theorem containsEsc_cons_of_ne (a : Char) (l : List Char) (ha : a ≠ '\\')
    (h : containsEsc l = false) : containsEsc (a :: l) = false := by
  match l with
  | [] => simp [containsEsc]
  | b :: rest => simp [containsEsc, ha, h]

/-- Consing a character onto a list that does not start with the letter n
and has no escape occurrence keeps it escape-free. -/
theorem containsEsc_cons_of_head_ne (a : Char) (l : List Char)
    (hl : ∀ q, l = 'n' :: q → False)
    (h : containsEsc l = false) : containsEsc (a :: l) = false := by
  match l with
  | [] => simp [containsEsc]
  | b :: rest =>
    have hb : b ≠ 'n' := fun hbn => hl rest (by rw [hbn])
    simp [containsEsc, hb, h]

/-- Every fragment produced by the split is free of the escape sequence. -/
theorem splitEsc_esc_free (l : List Char) :
    ∀ p ∈ splitEsc l, containsEsc p = false := by
  induction l using splitEsc.induct with
  | case1 => simp [splitEsc, containsEsc]
  | case2 c => simp [splitEsc, containsEsc]
  | case3 a b rest h ih =>
    intro p hp
    simp [splitEsc, h] at hp
    rcases hp with hp | hp
    · simp [hp, containsEsc]
    · exact ih p hp
  | case4 a b rest h heq ih => exact absurd heq (splitEsc_ne_nil (b :: rest))
  | case5 a b rest h p ps heq ih =>
    intro q hq
    simp [splitEsc, h, heq] at hq
    rcases hq with hq | hq
    · subst hq
      have hpfree : containsEsc p = false := ih p (by rw [heq]; simp)
      rcases splitEsc_head_cons b rest p ps heq with hpe | ⟨q', hq'⟩
      · subst hpe; simp [containsEsc]
      · subst hq'
        by_cases ha : a = '\\'
        · have hb : b ≠ 'n' := fun hbn => h ⟨ha, hbn⟩
          exact containsEsc_cons_of_head_ne a (b :: q')
            (fun q hq => hb (by injection hq)) hpfree
        · exact containsEsc_cons_of_ne a (b :: q') ha hpfree
    · exact ih q (by rw [heq]; simp [hq])

/-- On an escape-free list, the replacement of doubled-backslash-n by a real
newline is the identity (the pattern contains the escape as a substring). -/
theorem replaceEscEsc_of_esc_free (l : List Char)
    (h : containsEsc l = false) : replaceEscEsc l = l := by
  induction l using replaceEscEsc.induct with
  | case1 => simp [replaceEscEsc]
  | case2 c => simp [replaceEscEsc]
  | case3 c d => simp [replaceEscEsc]
  | case4 a b c rest habc ih =>
    exfalso
    obtain ⟨ha, hb, hc⟩ := habc
    simp [containsEsc, hb, hc] at h
  | case5 a b c rest habc ih =>
    have htail : containsEsc (b :: c :: rest) = false := containsEsc_tail a _ h
    simp [replaceEscEsc, habc, ih htail]

/-- A line containing the escape splits into at least two fragments. -/
theorem splitEsc_length (l : List Char) (h : containsEsc l = true) :
    2 ≤ (splitEsc l).length := by
  induction l using splitEsc.induct with
  | case1 => simp [containsEsc] at h
  | case2 c => simp [containsEsc] at h
  | case3 a b rest hab ih =>
    have h2 : 0 < (splitEsc rest).length :=
      List.length_pos.mpr (splitEsc_ne_nil rest)
    simp [splitEsc, hab]
    omega
  | case4 a b rest hab heq ih => exact absurd heq (splitEsc_ne_nil (b :: rest))
  | case5 a b rest hab p ps heq ih =>
    have htail : containsEsc (b :: rest) = true := by
      simp [containsEsc] at h
      rcases h with ⟨ha, hb⟩ | h
      · exact absurd ⟨ha, hb⟩ hab
      · exact h
    have := ih htail
    rw [heq] at this
    simp [splitEsc, hab, heq]
    simpa using this

/-- At least two fragments always produce at least one output line. -/
theorem processParts_ne_nil (ps : List (List Char)) (h : 2 ≤ ps.length) :
    processParts ps ≠ [] := by
  match ps with
  | [] => simp at h
  | [p] => simp at h
  | p :: q :: rest =>
    by_cases hp : p.isEmpty
    · simp [processParts, hp]
    · simp [processParts, hp]

/-- The Line Expander never returns an empty sequence. -/
theorem fix_code_block_line_ne_nil (line : List Char) :
    fix_code_block_line line ≠ [] := by
  by_cases h : containsEsc line
  · simp only [fix_code_block_line, h]
    exact processParts_ne_nil _ (splitEsc_length line h)
  · simp [fix_code_block_line, Bool.not_eq_true _ ▸ h]

/-- When the last fragment is non-empty, the last emitted line is that
fragment processed. -/
theorem processParts_last (fs : List (List Char)) (f : List Char)
    (hf : f ≠ []) :
    ∃ out, processParts (fs ++ [f]) = out ++ [processPart f] := by
  induction fs with
  | nil =>
    refine ⟨[], ?_⟩
    simp [processParts, hf]
  | cons p fs ih =>
    obtain ⟨out, hout⟩ := ih
    by_cases hp : p.isEmpty
    · refine ⟨['\n'] :: out, ?_⟩
      simp [processParts, hp, hout]
    · refine ⟨processPart p :: out, ?_⟩
      simp [processParts, hp, hout]

/-- Replacing doubled-backslash-n distributes over a final real newline
(a real newline matches no position of the pattern). -/
theorem replaceEscEsc_append_nl (ys : List Char) :
    replaceEscEsc (ys ++ ['\n']) = replaceEscEsc ys ++ ['\n'] := by
  induction ys using replaceEscEsc.induct with
  | case1 => simp [replaceEscEsc]
  | case2 c => simp [replaceEscEsc]
  | case3 c d =>
    have : ¬(c = '\\' ∧ d = '\\' ∧ '\n' = 'n') := by
      rintro ⟨-, -, h⟩
      exact absurd h (by decide)
    simp [replaceEscEsc, this]
  | case4 a b c rest habc ih =>
    simp [replaceEscEsc, habc, ih]
  | case5 a b c rest habc ih =>
    simp only [List.cons_append] at ih ⊢
    simp only [replaceEscEsc]
    rw [if_neg habc, if_neg habc, ih]
    simp

/-- Replacing escaped quotes distributes over a final real newline. -/
theorem replaceQuote_append_nl (ys : List Char) :
    replaceQuote (ys ++ ['\n']) = replaceQuote ys ++ ['\n'] := by
  induction ys using replaceQuote.induct with
  | case1 => simp [replaceQuote]
  | case2 c =>
    have : ¬(c = '\\' ∧ '\n' = '"') := by
      rintro ⟨-, h⟩
      exact absurd h (by decide)
    simp [replaceQuote, this]
  | case3 a b rest hab ih =>
    simp [replaceQuote, hab, ih]
  | case4 a b rest hab ih =>
    simp only [List.cons_append] at ih ⊢
    simp only [replaceQuote]
    rw [if_neg hab, if_neg hab, ih]
    simp

/-- Appending a real newline cannot create an escape occurrence. -/
theorem containsEsc_append_nl (l : List Char) :
    containsEsc (l ++ ['\n']) = containsEsc l := by
  induction l using containsEsc.induct with
  | case1 => simp [containsEsc]
  | case2 c =>
    have : ('\n' : Char) ≠ 'n' := by decide
    simp [containsEsc, this]
  | case3 a b rest ih =>
    simp only [List.cons_append] at ih ⊢
    simp only [containsEsc]
    rw [ih]

/-- The quote replacement keeps the head character, or turns a leading
backslash-quote pair into a leading quote. -/
theorem replaceQuote_head (b : Char) (rest : List Char) :
    (∃ t, replaceQuote (b :: rest) = b :: t) ∨
    (∃ t, replaceQuote (b :: rest) = '"' :: t) := by
  match rest with
  | [] => exact Or.inl ⟨[], by simp [replaceQuote]⟩
  | c :: r =>
    by_cases hbc : b = '\\' ∧ c = '"'
    · exact Or.inr ⟨replaceQuote r, by simp [replaceQuote, hbc]⟩
    · exact Or.inl ⟨replaceQuote (c :: r), by simp [replaceQuote, hbc]⟩

/-- The quote replacement preserves freedom from the escape sequence. -/
theorem replaceQuote_esc_free (l : List Char) (h : containsEsc l = false) :
    containsEsc (replaceQuote l) = false := by
  induction l using replaceQuote.induct with
  | case1 => simp [replaceQuote, containsEsc]
  | case2 c => simp [replaceQuote, containsEsc]
  | case3 a b rest hab ih =>
    have htail : containsEsc rest = false :=
      containsEsc_tail b _ (containsEsc_tail a _ h)
    have hq : ('"' : Char) ≠ '\\' := by decide
    simp only [replaceQuote, hab, if_pos, and_self]
    exact containsEsc_cons_of_ne '"' _ hq (ih htail)
  | case4 a b rest hab ih =>
    have htail : containsEsc (b :: rest) = false := containsEsc_tail a _ h
    have hrec := ih htail
    rw [replaceQuote, if_neg hab]
    by_cases ha : a = '\\'
    · have hb : b ≠ 'n' := by
        intro hbn
        simp [containsEsc, ha, hbn] at h
      rcases replaceQuote_head b rest with ⟨t, ht⟩ | ⟨t, ht⟩
      · rw [ht] at hrec ⊢
        exact containsEsc_cons_of_head_ne a _
          (fun q hq => hb (by injection hq)) hrec
      · rw [ht] at hrec ⊢
        exact containsEsc_cons_of_head_ne a _
          (fun q hq => by injection hq with h1 h2; exact absurd h1.symm (by decide)) hrec
    · exact containsEsc_cons_of_ne a _ ha hrec

/-- Every line emitted by the part loop is a processed fragment or a blank
line. -/
theorem mem_processParts (ps : List (List Char)) (out : List Char)
    (h : out ∈ processParts ps) :
    (∃ p ∈ ps, p ≠ [] ∧ out = processPart p) ∨ out = ['\n'] := by
  induction ps with
  | nil => simp [processParts] at h
  | cons p ps ih =>
    by_cases hp : p.isEmpty
    · by_cases hps : ps.isEmpty
      · simp [processParts, hp, hps] at h
        rcases ih h with ⟨q, hq, hqe, hout⟩ | hout
        · exact Or.inl ⟨q, by simp [hq], hqe, hout⟩
        · exact Or.inr hout
      · simp [processParts, hp, hps] at h
        rcases h with hout | h
        · exact Or.inr hout
        · rcases ih h with ⟨q, hq, hqe, hout⟩ | hout
          · exact Or.inl ⟨q, by simp [hq], hqe, hout⟩
          · exact Or.inr hout
    · simp [processParts, hp] at h
      rcases h with hout | h
      · exact Or.inl ⟨p, by simp, by simpa using hp, hout⟩
      · rcases ih h with ⟨q, hq, hqe, hout⟩ | hout
        · exact Or.inl ⟨q, by simp [hq], hqe, hout⟩
        · exact Or.inr hout

/-- On fragments free of the escape sequence, the source's part loop agrees
with the emission the specification describes (the doubled-backslash-n
replacement is the identity there). -/
theorem processParts_eq_specEmit (ps : List (List Char))
    (h : ∀ p ∈ ps, containsEsc p = false) :
    processParts ps = specEmit ps := by
  induction ps with
  | nil => rfl
  | cons p ps ih =>
    have hp : containsEsc p = false := h p (by simp)
    have htail : ∀ q ∈ ps, containsEsc q = false := fun q hq => h q (by simp [hq])
    have hpp : processPart p = replaceQuote p ++ ['\n'] := by
      simp [processPart, replaceEscEsc_of_esc_free p hp]
    by_cases hpe : p.isEmpty
    · simp [processParts, specEmit, hpe, ih htail]
    · simp [processParts, specEmit, hpe, hpp, ih htail]

/-- Every iteration of the scan loop appends at least one line. -/
theorem step_fst_ne_nil (inb : Bool) (line : List Char) :
    (step inb line).fst ≠ [] := by
  by_cases h1 : isFenceOpen line
  · simp [step, h1]
  · by_cases h2 : isFenceClose inb line
    · simp [step, h1, h2]
    · by_cases h3 : isGluedFence line
      · simp [step, h1, h2, h3]
      · by_cases h4 : isCollapsed inb line
        · simp only [step, h1, h2, h3, h4, Bool.false_eq_true, if_false, if_true]
          have hesc : containsEsc line = true := by
            simp only [isCollapsed, Bool.and_eq_true, decide_eq_true_eq] at h4
            exact h4.1.2
          simp only [fix_code_block_line, hesc, Bool.not_true, Bool.false_eq_true,
            if_false]
          exact processParts_ne_nil _ (splitEsc_length line hesc)
        · simp [step, h1, h2, h3, h4]

/-- The scan loop never shrinks the document. -/
theorem processLinesFrom_length (doc : List (List Char)) :
    ∀ inb, doc.length ≤ (processLinesFrom inb doc).length := by
  induction doc with
  | nil => intro inb; simp [processLinesFrom]
  | cons l ls ih =>
    intro inb
    have h1 : 0 < (step inb l).fst.length :=
      List.length_pos.mpr (step_fst_ne_nil inb l)
    have h2 := ih (step inb l).snd
    simp only [processLinesFrom, List.length_cons, List.length_append]
    omega

/-- On every fragment the split produces, the doubled-backslash-n
replacement is the identity: the split has already removed every occurrence
of the escape, and the three-character pattern contains it. -/
theorem replaceEscEsc_splitEsc_fragment (line p : List Char)
    (hp : p ∈ splitEsc line) : replaceEscEsc p = p :=
  replaceEscEsc_of_esc_free p (splitEsc_esc_free line p hp)

/-! ## Claims -/

/-- C1: for every line containing the literal backslash-n escape, the Line
Expander splits on every occurrence and emits the fragments in order: a
non-empty fragment becomes one output line with backslash-quote replaced by
a plain quote and a terminator appended, an empty non-final fragment becomes
a blank line, and an empty final fragment is dropped. -/
theorem c1_expander_matches_spec (line : List Char)
    (h : containsEsc line = true) :
    fix_code_block_line line = specEmit (splitEsc line) := by
  simp only [fix_code_block_line, h, Bool.not_true, Bool.false_eq_true, if_false]
  exact processParts_eq_specEmit _ (splitEsc_esc_free line)

/-- Witness for C1 at the concrete line a backslash n b. -/
theorem c1_expander_matches_spec_witness :
    fix_code_block_line ("a\\nb".toList) = specEmit (splitEsc ("a\\nb".toList)) :=
  c1_expander_matches_spec _ (by decide)

/-- C2 (counterexample): a line satisfying the claim's three hypotheses
(marker as substring, length over 20, stripped content not the marker) that
the rewriter does not split: processed in the inside-block state it matches
the fence-close rule first, is passed through unchanged as a single line,
and the state becomes outside-block rather than inside-block. -/
theorem c2_glued_fence_counterexample :
    isGluedFence exGlued = true ∧ step true exGlued = ([exGlued], false) :=
  ⟨by decide, by decide⟩

/-- C2 (amended): for a line containing the marker, longer than 20
characters, with stripped content not exactly the marker, and matching
neither of the two higher-priority rules (its stripped content does not
begin with the marker followed by a real newline, and the fence-close guard
does not hold for the current state), the rewriter — in either state —
emits the right-trimmed prefix (when text precedes the marker), then the
marker as its own line, then the Line Expander's output on the remainder,
and sets the state to inside-block. -/
theorem c2_glued_fence_split (inb : Bool) (line : List Char)
    (h1 : containsSub fencePy line = true) (h2 : line.length > 20)
    (h3 : pyStrip line ≠ fencePy)
    (h4 : fencePyNl.isPrefixOf (pyStrip line) = false)
    (h5 : isFenceClose inb line = false) :
    step inb line =
      ((if findSub fencePy line > 0 then
          [pyRstrip (line.take (findSub fencePy line)) ++ ['\n']]
        else []) ++
        (fencePy ++ ['\n']) :: fix_code_block_line (line.drop (findSub fencePy line + 9)),
       true) := by
  have hfo : isFenceOpen line = false := by
    simp [isFenceOpen, h3, h4]
  have hgf : isGluedFence line = true := by
    simp [isGluedFence, h1, h2, h3]
  simp [step, hfo, h5, hgf]

/-- Witness for amended C2: the glued-fence example line from the outside
state yields exactly the three claimed output lines and the inside state. -/
theorem c2_glued_fence_split_witness :
    step false exGlued =
      (["```python\n".toList, "def foo():\n".toList, "    return 1\n".toList],
       true) := by
  rw [c2_glued_fence_split false exGlued (by decide) (by decide) (by decide)
    (by decide) (by decide)]
  decide

/-- C3 (counterexample): a line processed in the inside-block state that
contains the escape and is longer than 150 characters but is not replaced by
the Line Expander's output: its stripped content starts with a generic fence
marker, so the fence-close rule wins, the line passes through unchanged and
the state flips to outside. -/
theorem c3_collapsed_counterexample :
    containsEsc exC3 = true ∧ exC3.length > 150 ∧
      step true exC3 = ([exC3], false) ∧ fix_code_block_line exC3 ≠ [exC3] :=
  ⟨by decide, by decide, by decide, by decide⟩

/-- C3 (amended): in the inside-block state, a line containing the escape
and longer than 150 characters that matches none of the three
higher-priority rules is replaced by the full Line Expander output with the
state unchanged; and a line matching none of the four rules passes through
unchanged with no state change. -/
theorem c3_collapsed_and_passthrough :
    (∀ line : List Char, isFenceOpen line = false →
      isFenceClose true line = false → isGluedFence line = false →
      containsEsc line = true → line.length > 150 →
      step true line = (fix_code_block_line line, true)) ∧
    (∀ (inb : Bool) (line : List Char), isFenceOpen line = false →
      isFenceClose inb line = false → isGluedFence line = false →
      isCollapsed inb line = false → step inb line = ([line], inb)) := by
  constructor
  · intro line h1 h2 h3 hesc hlen
    have hc : isCollapsed true line = true := by
      simp [isCollapsed, hesc, hlen]
    simp [step, h1, h2, h3, hc]
  · intro inb line h1 h2 h3 h4
    simp [step, h1, h2, h3, h4]

/-- Witness for amended C3: a short plain code line inside a block passes
through unchanged. -/
theorem c3_collapsed_and_passthrough_witness :
    step true ("x = 1\n".toList) = (["x = 1\n".toList], true) :=
  c3_collapsed_and_passthrough.2 true _ (by decide) (by decide) (by decide)
    (by decide)

/-- C4 (counterexample): a line processed in the outside state whose content
does not appear unchanged in the output: the glued-fence rule rewrites it. -/
theorem c4_outside_counterexample :
    (step false exGlued).fst ≠ [exGlued] := by decide

/-- C4 (amended): every line processed in the outside state that does not
satisfy the glued-fence guard is passed through byte-for-byte unchanged. -/
theorem c4_outside_unchanged (line : List Char)
    (h : isGluedFence line = false) :
    (step false line).fst = [line] := by
  by_cases h1 : isFenceOpen line
  · simp [step, h1]
  · have h2 : isFenceClose false line = false := by simp [isFenceClose]
    have h4 : isCollapsed false line = false := by simp [isCollapsed]
    simp [step, h1, h2, h, h4]

/-- Witness for amended C4 at a prose line. -/
theorem c4_outside_unchanged_witness :
    (step false ("Just some prose.\n".toList)).fst =
      ["Just some prose.\n".toList] :=
  c4_outside_unchanged _ (by decide)

/-- C5 (counterexample): a two-line document on which running the
transformation twice yields further changes the second time: the first pass
leaves the right-trimmed prefix of a glued-fence line, still longer than 150
characters and still containing a literal escape, inside the fence, and the
second pass expands it. -/
theorem c5_not_idempotent_counterexample :
    processLines (processLines exC5Doc) ≠ processLines exC5Doc := by decide

/-- C5 (amended): every line emitted by the Line Expander is free of the
literal backslash-n escape, so the expander is idempotent line by line; the
full document transformation, however, is not idempotent in general. -/
theorem c5_expander_line_idempotent (line out : List Char)
    (h : out ∈ fix_code_block_line line) :
    containsEsc out = false ∧ fix_code_block_line out = [out] := by
  have hfree : containsEsc out = false := by
    by_cases hc : containsEsc line
    · simp only [fix_code_block_line, hc, Bool.not_true, Bool.false_eq_true,
        if_false] at h
      rcases mem_processParts _ _ h with ⟨p, hp, hpne, hout⟩ | hout
      · have hpfree := splitEsc_esc_free line p hp
        have hpp : processPart p = replaceQuote p ++ ['\n'] := by
          rw [processPart, replaceEscEsc_of_esc_free p hpfree]
        rw [hout, hpp, containsEsc_append_nl]
        exact replaceQuote_esc_free p hpfree
      · rw [hout]; decide
    · have hcf : containsEsc line = false := by simpa using hc
      simp [fix_code_block_line, hcf] at h
      rw [h]
      exact hcf
  exact ⟨hfree, by simp [fix_code_block_line, hfree]⟩

/-- Witness for amended C5: an output line of the expander is escape-free
and fixed by a second application. -/
theorem c5_expander_line_idempotent_witness :
    containsEsc ['a', '\n'] = false ∧
      fix_code_block_line ['a', '\n'] = [['a', '\n']] :=
  c5_expander_line_idempotent ("a\\nb\n".toList) ['a', '\n'] (by decide)

/-- C6 (code bug): the failing input is the line
x = "a backslash backslash n b".  It does contain the doubled-backslash-n
sequence, yet the expander emits no line in which that sequence has become a
real newline: the split on backslash-n has already consumed the trailing two
characters of the pattern, leaving a fragment that ends in a stray single
backslash, and the replacement inside the loop never fires. -/
theorem c6_doubled_escape_never_unescaped :
    containsSub ['\\', '\\', 'n'] exC6 = true ∧
      fix_code_block_line exC6 = ["x = \"a\\\n".toList, "b\"\n".toList] :=
  ⟨by decide, by decide⟩

/-- C7: a line without the literal escape, the empty line included, is
returned unchanged as a one-element sequence. -/
theorem c7_no_escape_identity (line : List Char)
    (h : containsEsc line = false) :
    fix_code_block_line line = [line] := by
  simp [fix_code_block_line, h]

/-- Witness for C7 at the empty line. -/
theorem c7_no_escape_identity_witness :
    fix_code_block_line [] = [[]] :=
  c7_no_escape_identity [] (by decide)

/-- C8: a failed or undecodable read propagates unrecovered and nothing is
written (the read short-circuits before any processing), and on a successful
read the whole processed document is produced with no other error
condition. -/
theorem c8_read_failure_no_write :
    (∀ e : String, runMain (.error e) = .error e) ∧
    (∀ lines : List (List Char), runMain (.ok lines) = .ok (processLines lines)) :=
  ⟨fun _ => rfl, fun _ => rfl⟩

/-- C9: the Line Expander never returns an empty sequence on a non-empty
line, every iteration of the scan loop appends at least one line, and the
output line count is at least the input line count, so the reported
expansion delta is never negative. -/
theorem c9_output_never_shrinks :
    (∀ line : List Char, line ≠ [] → fix_code_block_line line ≠ []) ∧
    (∀ (inb : Bool) (line : List Char), (step inb line).fst ≠ []) ∧
    (∀ doc : List (List Char), doc.length ≤ (processLines doc).length) :=
  ⟨fun line _ => fix_code_block_line_ne_nil line,
   step_fst_ne_nil,
   fun doc => processLinesFrom_length doc false⟩

/-- Witness for C9 at a one-character line. -/
theorem c9_output_never_shrinks_witness :
    fix_code_block_line ['a'] ≠ [] :=
  c9_output_never_shrinks.1 ['a'] (by decide)

/-- C10: when a line contains the literal escape and its final split
fragment is non-empty, the last emitted line is that fragment processed with
one more terminator appended; in particular when the fragment already ends
with a real newline the last emitted line ends with two newline characters,
an extra blank line. -/
theorem c10_trailing_fragment_extra_newline (line : List Char)
    (fs : List (List Char)) (f : List Char)
    (h1 : containsEsc line = true) (h2 : splitEsc line = fs ++ [f])
    (h3 : f ≠ []) :
    (∃ out, fix_code_block_line line =
      out ++ [replaceQuote (replaceEscEsc f) ++ ['\n']]) ∧
    (∀ ws, f = ws ++ ['\n'] →
      ∃ out v, fix_code_block_line line = out ++ [v ++ ['\n', '\n']]) := by
  have hfix : fix_code_block_line line = processParts (fs ++ [f]) := by
    simp [fix_code_block_line, h1, h2]
  obtain ⟨out, hout⟩ := processParts_last fs f h3
  constructor
  · exact ⟨out, by rw [hfix, hout, processPart]⟩
  · intro ws hws
    refine ⟨out, replaceQuote (replaceEscEsc ws), ?_⟩
    rw [hfix, hout, processPart, hws, replaceEscEsc_append_nl,
      replaceQuote_append_nl]
    simp

/-- Witness for C10 at the line a backslash n b real-newline. -/
theorem c10_trailing_fragment_extra_newline_witness :
    (∃ out, fix_code_block_line ("a\\nb\n".toList) =
      out ++ [replaceQuote (replaceEscEsc ['b', '\n']) ++ ['\n']]) ∧
    (∀ ws, (['b', '\n'] : List Char) = ws ++ ['\n'] →
      ∃ out v, fix_code_block_line ("a\\nb\n".toList) =
        out ++ [v ++ ['\n', '\n']]) :=
  c10_trailing_fragment_extra_newline _ [['a']] ['b', '\n'] (by decide)
    (by decide) (by decide)

end FixNlp


